import Mathlib

/-
Verification of the dependency-graph & propagation engine of the
Study-practice-5th-semester repository.

The Python sources are shallow-embedded below:
* `demo_stand/gitlab-scripts/src/dependency_manager.py` (class `DependencyManager`)
  is embedded in namespace `DependencyManager`;
* `demo_stand/gitlab-scripts/dependency_manager.py` (the older module-level
  functions) is embedded in namespace `legacy`;
* `demo_stand/webhook-app/src/main.py` (the webhook ingestion boundary) is
  embedded at top level (`get_name`, `get_version`, `handle_nexus_webhook`).

Python strings are modelled as Lean `String` (a list of characters); the
string helpers `pyStrip`, `pyStartsWith`, `pyEndsWith`, `pyContains` and
`basename` implement the Python `str` operations used by the sources at the
character-list level.  Python dicts are modelled as insertion-ordered
association lists with unique keys (`pyDictGet`, `pyDictGetD`, `pyDictSet`).
A manifest (`pyproject.toml`) is modelled by `TomlDoc`: tomlkit's
parse/dump round-trip is format-preserving, so content is represented
directly by its project name, its dependency array, and an opaque `rest`
holding everything the code never touches.
-/

/-- Python `s.strip()`: drop leading and trailing whitespace
(modelled for the whitespace characters covered by `Char.isWhitespace`). -/
def pyStrip (s : String) : String :=
  String.mk (((s.data.dropWhile Char.isWhitespace).reverse.dropWhile
    Char.isWhitespace).reverse)

/-- Python `s.startswith(p)`. -/
def pyStartsWith (s p : String) : Bool :=
  p.data.isPrefixOf s.data

/-- Python `s.endswith(p)`. -/
def pyEndsWith (s p : String) : Bool :=
  p.data.isSuffixOf s.data

/-- Auxiliary for Python `needle in hay`: does `needle` occur as a
contiguous sublist of `hay`? -/
def pyContainsAux (needle : List Char) : List Char → Bool
  | [] => needle.isPrefixOf []
  | c :: t => needle.isPrefixOf (c :: t) || pyContainsAux needle t

/-- Python substring test `needle in hay`. -/
def pyContains (hay needle : String) : Bool :=
  pyContainsAux needle.data hay.data

/-- Python `filename.split("/")[-1]`: the part after the last `/`
(the whole string when there is no `/`). -/
def basename (s : String) : String :=
  String.mk ((s.data.reverse.takeWhile (fun c => c ≠ '/')).reverse)

/-- Python `d[k]` on a dict modelled as an association list:
`none` models a raised `KeyError`. -/
def pyDictGet {α : Type} (d : List (String × α)) (k : String) : Option α :=
  (d.find? (fun kv => kv.1 == k)).map (fun kv => kv.2)

/-- Python `d.get(k, dflt)`. -/
def pyDictGetD {α : Type} (d : List (String × α)) (k : String) (dflt : α) : α :=
  ((d.find? (fun kv => kv.1 == k)).map (fun kv => kv.2)).getD dflt

/-- Python `d[k] = v`: replace the value of an existing key,
otherwise append the new key at the end (insertion order). -/
def pyDictSet {κ α : Type} [BEq κ] (d : List (κ × α)) (k : κ) (v : α) :
    List (κ × α) :=
  if d.any (fun kv => kv.1 == k) then
    d.map (fun kv => if kv.1 == k then (k, v) else kv)
  else d ++ [(k, v)]

/-- A parsed `pyproject.toml`.  tomlkit preserves all content and formatting
outside the fields the code touches, so that content is kept opaque in
`rest`. -/
structure TomlDoc where
  projectName : String
  dependencies : List String
  rest : String
deriving DecidableEq

/-- The `ProjectInfo` dataclass of `src/dependency_manager.py`. -/
structure ProjectInfo where
  name : String
  url : String
  dependencies : List String
deriving DecidableEq

/-- The matching rule exactly as the spec states it (§4.1): the entry
itself starts with one of the three package prefixes.  (The code applies
this test to the *stripped* entry; see `DependencyManager.update_dep_entry`.) -/
def claimMatches (package_name dep : String) : Bool :=
  pyStartsWith dep (package_name ++ " @ git+") ||
  pyStartsWith dep (package_name ++ ">=") ||
  pyStartsWith dep (package_name ++ "==")

namespace DependencyManager

/-- The per-entry body of the `for dep in deps_array` loop of
`DependencyManager._update_toml_dependencies`: `dep_str = str(dep).strip()`,
then the if/elif/elif/else chain on `dep_str.startswith(...)`. -/
def update_dep_entry (package_name package_version dep : String) : String :=
  if pyStartsWith (pyStrip dep) (package_name ++ " @ git+") then
    package_name ++ ">=" ++ package_version
  else if pyStartsWith (pyStrip dep) (package_name ++ ">=") then
    package_name ++ ">=" ++ package_version
  else if pyStartsWith (pyStrip dep) (package_name ++ "==") then
    package_name ++ ">=" ++ package_version
  else dep

/-- Model of `DependencyManager._update_toml_dependencies`: parse the content,
rebuild the dependency array entry by entry in order, dump the content.
All other content is preserved by tomlkit. -/
def update_toml_dependencies (doc : TomlDoc)
    (package_name package_version : String) : TomlDoc :=
  { doc with
    dependencies :=
      doc.dependencies.map (update_dep_entry package_name package_version) }

/-- Model of `DependencyManager._get_depended_projects_id`: iterate the registry in
insertion order; for every dependency entry `dep` of a project with
`project_name in dep` (Python substring test), append the project's id.  A
project id is appended once per matching entry, exactly as in the source's
nested `for` loops. -/
def get_depended_projects_id (projects : List (Nat × ProjectInfo))
    (project_name : String) : List Nat :=
  projects.flatMap (fun p =>
    p.2.dependencies.filterMap (fun dep =>
      if pyContains dep project_name then some p.1 else none))

/-- One network interaction of `update_all_direct_dependencies` with the
GitLab API, in the order the source performs them per dependent. -/
inductive ApiCall where
  | createBranch (projectId : Nat) (branch fromRef : String)
  | getToml (projectId : Nat) (ref : String)
  | commitFile (projectId : Nat) (branch : String)
  | createTag (projectId : Nat) (tag ref : String)
  | createMergeRequest (projectId : Nat) (sourceBranch : String)
deriving DecidableEq

/-- The five API calls issued for one dependent project inside the `for`
loop of `DependencyManager.update_all_direct_dependencies`
(branch, manifest fetch, commit, tag, merge request), in source order. -/
def dependentCalls (package_name version : String) (projectId : Nat) :
    List ApiCall :=
  [ApiCall.createBranch projectId
     ("auto-update-" ++ package_name ++ "-" ++ version) "main",
   ApiCall.getToml projectId ("auto-update-" ++ package_name ++ "-" ++ version),
   ApiCall.commitFile projectId
     ("auto-update-" ++ package_name ++ "-" ++ version),
   ApiCall.createTag projectId ("v" ++ version ++ "-mr-auto")
     ("auto-update-" ++ package_name ++ "-" ++ version),
   ApiCall.createMergeRequest projectId
     ("auto-update-" ++ package_name ++ "-" ++ version)]

/-- Python exception semantics of a straight-line call sequence with no
`try`/`except`: calls execute in order; a call for which `raises` holds
aborts the whole run at that point.  Returns the attempted calls (the
failing call included) and whether the run finished without an exception. -/
def runCalls (raises : ApiCall → Bool) : List ApiCall → List ApiCall × Bool
  | [] => ([], true)
  | c :: cs =>
    if raises c then ([c], false)
    else
      let r := runCalls raises cs
      (c :: r.1, r.2)

/-- Model of `DependencyManager.update_all_direct_dependencies` after its initial
registry refresh (`_refresh_projects_data` swallows its own errors and
replaces `self._projects`; `projects` here is the post-refresh registry):
compute the dependents of `package_name`, then run the five per-dependent
API calls for every dependent in sequence.  The loop body has no
`try`/`except`, so an exception raised by any call propagates out of the
method, which `runCalls` models. -/
def propagation_calls (projects : List (Nat × ProjectInfo))
    (package_name version : String) : List ApiCall :=
  (get_depended_projects_id projects package_name).flatMap
    (dependentCalls package_name version)

/-- The workflow body itself: run the whole call sequence under Python
exception propagation. -/
def update_all_direct_dependencies (raises : ApiCall → Bool)
    (projects : List (Nat × ProjectInfo)) (package_name version : String) :
    List ApiCall × Bool :=
  runCalls raises (propagation_calls projects package_name version)

/-- One element of the GitLab group-listing response: the fields
`_load_group_projects` reads (`id`, `name`, `http_url_to_repo`). -/
structure ProjectResponse where
  id : Nat
  name : String
  url : String
deriving DecidableEq

/-- The two `GitLabAPI` operations the registry load uses.
`get_all_projects_from_group` re-raises transport errors (`Except.error`);
`get_pyproject_toml` returns `none` both for a missing file and for any
transport error (the source catches every exception and returns `None`). -/
structure GitLabApiModel where
  get_all_projects_from_group : Nat → Except String (List ProjectResponse)
  get_pyproject_toml : Nat → Option TomlDoc

/-- The dependency list recorded for one project of the response: `[]` when
its manifest fetch returns `None` (the warning branch with `continue`),
otherwise the parsed document's dependency array
(`doc.get("project", {}).get("dependencies", [])` is absorbed into
`TomlDoc.dependencies`). -/
def manifest_dependencies (api : GitLabApiModel) (pr : ProjectResponse) :
    List String :=
  match api.get_pyproject_toml pr.id with
  | Option.none => []
  | some doc => doc.dependencies

/-- Model of `DependencyManager._parse_dependencies_from_response`: build the
name → dependency-list dict in response order; a project whose manifest
fetch returns `None` is recorded with `[]` (after a warning log). -/
def parse_dependencies_from_response (api : GitLabApiModel)
    (response : List ProjectResponse) : List (String × List String) :=
  response.foldl
    (fun deps pr => pyDictSet deps pr.name (manifest_dependencies api pr))
    []

/-- Model of `DependencyManager._load_group_projects`: list the group (any failure
there escapes the `try` block, is logged and re-raised), parse every
manifest, and build the id → `ProjectInfo` dict with
`dep = dependencies.get(name, [])`. -/
def load_group_projects (api : GitLabApiModel) (group_id : Nat) :
    Except String (List (Nat × ProjectInfo)) :=
  match api.get_all_projects_from_group group_id with
  | Except.error e => Except.error e
  | Except.ok projects_response =>
    let dependencies := parse_dependencies_from_response api projects_response
    Except.ok
      (projects_response.foldl
        (fun projects pr =>
          pyDictSet projects pr.id
            (ProjectInfo.mk pr.name pr.url (pyDictGetD dependencies pr.name [])))
        [])

/-- The `root_modules` list of `build_module_map`: the names whose dependency list
is empty, in dict order. -/
def root_modules (dependencies : List (String × List String)) : List String :=
  (dependencies.filter (fun kv => kv.2.isEmpty)).map (fun kv => kv.1)

/-- The `all_deps` set of `build_module_map`: every dependency reference occurring
in any project's list (a set in the source; only membership is used). -/
def all_deps (dependencies : List (String × List String)) : List String :=
  dependencies.flatMap (fun kv => kv.2)

/-- The `leaf_modules` set of `build_module_map`: `set(dependencies.keys()) - all_deps`. -/
def leaf_modules (dependencies : List (String × List String)) : List String :=
  (dependencies.map (fun kv => kv.1)).filter
    (fun m => !(all_deps dependencies).contains m)

/-- The classification a module receives in `build_module_map`. -/
inductive ModuleClass where
  | root
  | middle
  | leaf
deriving DecidableEq

/-- The `if module in root_modules / elif module in leaf_modules / else`
chain of `build_module_map`'s classification loop. -/
def classify_module (dependencies : List (String × List String))
    (module : String) : ModuleClass :=
  if (root_modules dependencies).contains module then ModuleClass.root
  else if (leaf_modules dependencies).contains module then ModuleClass.leaf
  else ModuleClass.middle

/-- The edge lines of `build_module_map`: one `dep --> module` pair per
dependency reference, in dict order. -/
def module_edges (dependencies : List (String × List String)) :
    List (String × String) :=
  dependencies.flatMap (fun kv => kv.2.map (fun dep => (dep, kv.1)))

/-- Insert into a lexicographically sorted list of strings. -/
def insertSorted (s : String) : List String → List String
  | [] => [s]
  | t :: ts =>
    match compare s t with
    | Ordering.gt => t :: insertSorted s ts
    | _ => s :: t :: ts

/-- Python `sorted(...)` on strings (insertion sort; stable, total). -/
def sortStrings : List String → List String
  | [] => []
  | s :: ss => insertSorted s (sortStrings ss)

/-- Model of `DependencyManager.build_module_map` on the name → dependencies dict it
derives from the registry: header lines, one classification line per module
(over `sorted(set(keys))`), one edge line per dependency reference, joined
with newlines. -/
def build_module_map (dependencies : List (String × List String)) : String :=
  String.intercalate "\n"
    (["graph TD",
      "classDef root fill:#dcfce7,stroke:#22c55e,color:#166534,stroke-width:2px",
      "classDef middle fill:#fef3c7,stroke:#f59e0b,color:#92400e,stroke-width:2px",
      "classDef leaf fill:#fee2e2,stroke:#ef4444,color:#991b1b,stroke-width:3px"] ++
     (sortStrings ((dependencies.map (fun kv => kv.1)).eraseDups)).map
       (fun module =>
         match classify_module dependencies module with
         | ModuleClass.root => module ++ ":::root"
         | ModuleClass.leaf => module ++ ":::leaf"
         | ModuleClass.middle => module ++ ":::middle") ++
     (module_edges dependencies).map (fun e => e.1 ++ " --> " ++ e.2))

end DependencyManager

namespace legacy

/-- Model of `update_toml_dependencies` of the older
`gitlab-scripts/dependency_manager.py` (the initial-assignment render): for
every name of `dependencies` present in the `project_urls` dict, emit the
VCS-form entry `name @ git+<url>@main`; names absent from the dict are
silently dropped.  The new dependency array replaces the old one; the rest
of the manifest is preserved by tomlkit.
(`DependencyManager.init_project_dependencies` of the newer file renders
the dependency array the same way.) -/
def update_toml_dependencies (doc : TomlDoc) (dependencies : List String)
    (project_urls : List (String × String)) : TomlDoc :=
  { doc with
    dependencies :=
      dependencies.filterMap (fun dep =>
        (pyDictGet project_urls dep).map (fun url =>
          dep ++ " @ git+" ++ url ++ "@main")) }

/-- One entry of the parse in `get_dependencies_in_group`:
`dep.split("@")[0][:-1]` — the text before the first `@`, minus its final
character. -/
def parse_dep_entry (dep : String) : String :=
  String.mk ((dep.data.takeWhile (fun c => c ≠ '@')).dropLast)

/-- The list comprehension of `get_dependencies_in_group` that recovers the
bare dependency names of one project's manifest. -/
def parse_dependencies (deps : List String) : List String :=
  deps.map parse_dep_entry

end legacy

/-- The `AssetData` payload model of `webhook-app/src/main.py`. -/
structure AssetData where
  id : String
  assetId : String
  format : String
  name : String
deriving DecidableEq

/-- The `NexusWebhook` payload model of `webhook-app/src/main.py`. -/
structure NexusWebhook where
  timestamp : String
  nodeId : String
  initiator : String
  repositoryName : String
  action : String
  asset : AssetData
deriving DecidableEq

/-- A Python value stored in the event dict: `None` or a string. -/
inductive PyValue where
  | none
  | str (s : String)
deriving DecidableEq

/-- Lift an optional string into a dict value (`None` when absent). -/
def optStr : Option String → PyValue
  | Option.none => PyValue.none
  | Option.some s => PyValue.str s

/-- The observable outcome of `handle_nexus_webhook`: an ignored event with
its reason, or an event enqueued with the `package_info` dict built by the
handler. -/
inductive WebhookResponse where
  | ignored (reason : String)
  | queued (package_info : List (String × PyValue))
deriving DecidableEq

/-- A character matched by the regex class `[\w_]` (ASCII model of `\w`:
letters, digits, underscore). -/
def isWordChar (c : Char) : Bool :=
  c.isAlpha || c.isDigit || c = '_'

/-- Match the regex suffix `\d+\.\d+\.\d+` against a prefix of `cs` and
return the matched text.  `\d+` is greedy and digits are disjoint from
`.`, so greedy matching needs no backtracking here. -/
def parseVersionChars (cs : List Char) : Option (List Char) :=
  let d1 := cs.takeWhile Char.isDigit
  if d1.isEmpty then Option.none
  else
    match cs.drop d1.length with
    | '.' :: r2 =>
      let d2 := r2.takeWhile Char.isDigit
      if d2.isEmpty then Option.none
      else
        match r2.drop d2.length with
        | '.' :: r4 =>
          let d3 := r4.takeWhile Char.isDigit
          if d3.isEmpty then Option.none
          else Option.some (d1 ++ '.' :: (d2 ++ '.' :: d3))
        | _ => Option.none
    | _ => Option.none

/-- Model of `get_name` of `webhook-app/src/main.py`:
`re.match(r"([\w_]+)-\d+\.\d+\.\d+", basename)` with `_` replaced by `-` in
the captured group.  The greedy `[\w_]+` run can only be followed by the
literal `-` at its maximal extent (`-` is not a word character, so every
backtracked shorter extent would face a word character instead of `-`);
the capture is therefore the maximal word-character run, and it must be
followed by `-` and the version pattern.  `replace("_", "-")` on the
captured word characters is character-wise. -/
def get_name (filename : String) : Option String :=
  let cs := (basename filename).data
  let w := cs.takeWhile isWordChar
  if w.isEmpty then Option.none
  else
    match cs.drop w.length with
    | '-' :: r =>
      if (parseVersionChars r).isSome then
        Option.some (String.mk (w.map (fun c => if c = '_' then '-' else c)))
      else Option.none
    | _ => Option.none

/-- Model of `get_version` of `webhook-app/src/main.py`:
`re.match(r"[\w_]+-(\d+\.\d+\.\d+)", basename)`, capturing the version
text (same greedy-matching argument as `get_name`). -/
def get_version (filename : String) : Option String :=
  let cs := (basename filename).data
  let w := cs.takeWhile isWordChar
  if w.isEmpty then Option.none
  else
    match cs.drop w.length with
    | '-' :: r =>
      match parseVersionChars r with
      | Option.some v => Option.some (String.mk v)
      | Option.none => Option.none
    | _ => Option.none

/-- Model of `handle_nexus_webhook` of `webhook-app/src/main.py`: reject non-CREATED
actions and non-`.whl` asset names; otherwise build the `package_info` dict
(keys `package_name`, `version`, `repository`, `timestamp`) and enqueue it
unconditionally — also when `get_name` / `get_version` returned `None`. -/
def handle_nexus_webhook (payload : NexusWebhook) : WebhookResponse :=
  if payload.action ≠ "CREATED" then WebhookResponse.ignored "Not a CREATE event"
  else if !(pyEndsWith payload.asset.name ".whl") then
    WebhookResponse.ignored "Not a wheel file"
  else
    WebhookResponse.queued
      [("package_name", optStr (get_name payload.asset.name)),
       ("version", optStr (get_version payload.asset.name)),
       ("repository", PyValue.str payload.repositoryName),
       ("timestamp", PyValue.str payload.timestamp)]

/-- Fault model for a concrete propagation run: the branch-create call of
project 1 raises, every other call succeeds. -/
def raisesBranchOne : DependencyManager.ApiCall → Bool :=
  fun c => c == DependencyManager.ApiCall.createBranch 1 "auto-update-pkg-1.2.3" "main"

/-- A registry with two projects that both depend on package `pkg`. -/
def registryTwoDependents : List (Nat × ProjectInfo) :=
  [(1, ProjectInfo.mk "svc-a" "http://git/svc-a.git" ["pkg>=1.0.0"]),
   (2, ProjectInfo.mk "svc-b" "http://git/svc-b.git" ["pkg>=1.0.0"])]

/-- A hosting API whose group listing succeeds with two projects; project 1
has a manifest, project 2 has none. -/
def apiTwoProjects : DependencyManager.GitLabApiModel :=
  { get_all_projects_from_group := fun _ =>
      Except.ok [DependencyManager.ProjectResponse.mk 1 "svc-a" "http://git/svc-a.git",
                 DependencyManager.ProjectResponse.mk 2 "svc-b" "http://git/svc-b.git"],
    get_pyproject_toml := fun id =>
      if id = 1 then some (TomlDoc.mk "svc-a" ["pkg>=1.0.0"] "") else none }

/-- A hosting API whose group listing fails at the transport level. -/
def apiListingFails : DependencyManager.GitLabApiModel :=
  { get_all_projects_from_group := fun _ => Except.error "connection refused",
    get_pyproject_toml := fun _ => none }

/-- A name → clone-url dict holding the single tracked dependency `a`. -/
def urlsSingle : List (String × String) := [("a", "http://git/a.git")]

/-
Helper lemmas shared by several developments below.
-/

/-- Per-entry rewrite in closed form: the source's if/elif chain on the
stripped entry equals a single test of the three-prefix rule applied to
the stripped entry. -/
theorem update_dep_entry_eq (pn pv dep : String) :
    DependencyManager.update_dep_entry pn pv dep =
      if claimMatches pn (pyStrip dep) then pn ++ ">=" ++ pv else dep := by
  simp only [DependencyManager.update_dep_entry, claimMatches]
  by_cases h1 : pyStartsWith (pyStrip dep) (pn ++ " @ git+") <;>
    by_cases h2 : pyStartsWith (pyStrip dep) (pn ++ ">=") <;>
      by_cases h3 : pyStartsWith (pyStrip dep) (pn ++ "==") <;>
        simp [h1, h2, h3]

/-- Rewriting an already-rewritten entry changes nothing. -/
theorem update_dep_entry_idem (pn pv dep : String) :
    DependencyManager.update_dep_entry pn pv
      (DependencyManager.update_dep_entry pn pv dep) =
    DependencyManager.update_dep_entry pn pv dep := by
  rw [update_dep_entry_eq pn pv dep]
  by_cases h : claimMatches pn (pyStrip dep)
  · simp only [h, if_true]
    rw [update_dep_entry_eq]
    exact ite_self _
  · simp only [h, if_false]
    rw [update_dep_entry_eq]
    simp [h]

/-- C3.  The claim's literal matching rule ("an entry is a match exactly
when it *starts with* one of the three prefixes") fails on the code: the
entry " foo>=1.0.0" (leading space) starts with none of the three prefixes
for package `foo`, so per the claim it must pass through unchanged, yet the
rewrite replaces it with "foo>=2.0.0". -/
theorem C3_counterexample :
    claimMatches "foo" " foo>=1.0.0" = false ∧
    DependencyManager.update_toml_dependencies
        (TomlDoc.mk "demo" [" foo>=1.0.0"] "") "foo" "2.0.0" =
      TomlDoc.mk "demo" ["foo>=2.0.0"] "" := by
  decide

/-- C3 (amended).  For every manifest and every (package_name, new_version):
the rewrite keeps everything outside the dependency array unchanged and maps
the array entrywise in order; an entry is a match exactly when the entry
*stripped of leading and trailing whitespace* starts with
`{package_name} @ git+`, `{package_name}>=` or `{package_name}==`; every
matching entry is rewritten to `{package_name}>={new_version}` and every
non-matching entry passes through unchanged. -/
theorem C3_version_bump_rewrite (doc : TomlDoc) (package_name package_version : String) :
    (DependencyManager.update_toml_dependencies doc package_name package_version).projectName
        = doc.projectName ∧
    (DependencyManager.update_toml_dependencies doc package_name package_version).rest
        = doc.rest ∧
    (DependencyManager.update_toml_dependencies doc package_name package_version).dependencies
        = doc.dependencies.map (fun dep =>
            if claimMatches package_name (pyStrip dep) then
              package_name ++ ">=" ++ package_version
            else dep) := by
  refine ⟨rfl, rfl, ?_⟩
  simp only [DependencyManager.update_toml_dependencies]
  exact List.map_congr_left (fun dep _ => update_dep_entry_eq package_name package_version dep)

/-- C4.  The version-bump rewrite is idempotent: applying it twice with the
same package name and version yields the same manifest as applying it once. -/
theorem C4_rewrite_idempotent (doc : TomlDoc) (package_name package_version : String) :
    DependencyManager.update_toml_dependencies
        (DependencyManager.update_toml_dependencies doc package_name package_version)
        package_name package_version =
      DependencyManager.update_toml_dependencies doc package_name package_version := by
  have h : ∀ l : List String,
      (l.map (DependencyManager.update_dep_entry package_name package_version)).map
          (DependencyManager.update_dep_entry package_name package_version) =
        l.map (DependencyManager.update_dep_entry package_name package_version) := by
    intro l
    rw [List.map_map]
    exact List.map_congr_left
      (fun dep _ => update_dep_entry_idem package_name package_version dep)
  simp [DependencyManager.update_toml_dependencies, h]

/-- Correctness of the Python substring test: `pyContainsAux needle hay`
holds exactly when `needle` is a contiguous sublist of `hay`. -/
theorem pyContainsAux_eq_true_iff (needle : List Char) :
    ∀ hay : List Char,
      pyContainsAux needle hay = true ↔ ∃ s t, hay = s ++ needle ++ t := by
  intro hay
  induction hay with
  | nil =>
    simp only [pyContainsAux, List.isPrefixOf_iff_prefix]
    constructor
    · intro h
      obtain ⟨t, ht⟩ := h
      rcases List.append_eq_nil.mp ht with ⟨h1, h2⟩
      exact ⟨[], [], by simp [h1]⟩
    · rintro ⟨s, t, h⟩
      rcases List.append_eq_nil.mp h.symm with ⟨h1, h2⟩
      rcases List.append_eq_nil.mp h1 with ⟨h3, h4⟩
      exact ⟨[], by simp [h4]⟩
  | cons c tl ih =>
    simp only [pyContainsAux, Bool.or_eq_true, List.isPrefixOf_iff_prefix, ih]
    constructor
    · rintro (⟨t, ht⟩ | ⟨s, t, h⟩)
      · exact ⟨[], t, by simpa using ht.symm⟩
      · exact ⟨c :: s, t, by simp [h]⟩
    · rintro ⟨s, t, h⟩
      match s with
      | [] =>
        left
        refine ⟨t, ?_⟩
        simpa using h.symm
      | a :: s' =>
        right
        rcases List.cons_eq_cons.mp (by simpa using h) with ⟨hc, htl⟩
        exact ⟨s', t, by simpa using htl⟩

/-- C5 (amended).  Dependents resolution returns exactly the ids of projects
having at least one dependency entry that contains the published package
name as a contiguous *substring* (Python `name in dep`) — a strictly looser
rule than the version-bump prefix rule; an id occurs once per matching
entry. -/
theorem C5_dependents_substring (projects : List (Nat × ProjectInfo))
    (project_name : String) (id : Nat) :
    id ∈ DependencyManager.get_depended_projects_id projects project_name ↔
      ∃ p, p ∈ projects ∧ p.1 = id ∧
        ∃ dep ∈ p.2.dependencies, ∃ s t,
          dep.data = s ++ project_name.data ++ t := by
  simp only [DependencyManager.get_depended_projects_id, List.mem_flatMap,
    List.mem_filterMap]
  constructor
  · rintro ⟨p, hp, dep, hdep, hsome⟩
    by_cases hc : pyContains dep project_name
    · refine ⟨p, hp, ?_, dep, hdep, ?_⟩
      · simpa [hc] using hsome
      · exact (pyContainsAux_eq_true_iff project_name.data dep.data).mp hc
    · simp [hc] at hsome
  · rintro ⟨p, hp, hid, dep, hdep, s, t, hst⟩
    refine ⟨p, hp, dep, hdep, ?_⟩
    have hc : pyContains dep project_name = true :=
      (pyContainsAux_eq_true_iff project_name.data dep.data).mpr ⟨s, t, hst⟩
    simp [hc, hid]

/-- C5.  The claim ties dependents resolution to the version-bump matching
rule; the code instead uses a substring test.  Registry: one project whose
only dependency entry is "bar @ git+http://host/foo.git@main".  For the
published package `foo` that entry matches the version-bump rule in neither
raw nor stripped form, so per the claim the project must be excluded — yet
the code returns its id (the name occurs inside the VCS url). -/
theorem C5_counterexample :
    DependencyManager.get_depended_projects_id
        [(1, ProjectInfo.mk "bar-svc" "http://host/bar.git"
              ["bar @ git+http://host/foo.git@main"])] "foo" = [1] ∧
    claimMatches "foo" "bar @ git+http://host/foo.git@main" = false ∧
    claimMatches "foo" (pyStrip "bar @ git+http://host/foo.git@main") = false := by
  decide

/-- Closed form of Python exception propagation over a call sequence: the
attempted calls are the non-raising head of the sequence plus the first
raising call (when there is one), and the run succeeds exactly when no call
raises. -/
theorem runCalls_spec (raises : DependencyManager.ApiCall → Bool) :
    ∀ cs : List DependencyManager.ApiCall,
      DependencyManager.runCalls raises cs =
        (cs.takeWhile (fun c => !raises c) ++
           (cs.dropWhile (fun c => !raises c)).take 1,
         cs.all (fun c => !raises c)) := by
  intro cs
  induction cs with
  | nil => rfl
  | cons c cs ih =>
    by_cases h : raises c = true
    · simp [DependencyManager.runCalls, h]
    · simp only [Bool.not_eq_true] at h
      simp [DependencyManager.runCalls, h, ih]

/-- C1.  The claim ("a failure while processing one dependent never prevents
processing of the remaining dependents; the workflow always completes after
attempting every dependent, with no terminal failure for the run") fails on
the code: in a registry where projects 1 and 2 both depend on `pkg`,
project 2 is a dependent, yet when project 1's branch-create call raises the
run terminates in failure and no call for project 2 is ever attempted — the
`for` loop of `update_all_direct_dependencies` has no per-dependent
`try`/`except`. -/
theorem C1_counterexample :
    2 ∈ DependencyManager.get_depended_projects_id registryTwoDependents "pkg" ∧
    (DependencyManager.update_all_direct_dependencies raisesBranchOne
        registryTwoDependents "pkg" "1.2.3").2 = false ∧
    DependencyManager.ApiCall.createBranch 2 "auto-update-pkg-1.2.3" "main" ∉
      (DependencyManager.update_all_direct_dependencies raisesBranchOne
        registryTwoDependents "pkg" "1.2.3").1 := by
  decide

/-- C1 (amended).  A failure while processing one dependent aborts the whole
propagation run, not just that dependent: the workflow attempts the
per-dependent API calls in registry order and stops at the first raising
call, which is the last call attempted (the exception propagates out of the
method to the queue consumer); later dependents are not attempted, and the
run finishes with every dependent fully processed exactly when no call
raises. -/
theorem C1_failure_aborts_run (raises : DependencyManager.ApiCall → Bool)
    (projects : List (Nat × ProjectInfo)) (package_name version : String) :
    DependencyManager.update_all_direct_dependencies raises projects
        package_name version =
      ((DependencyManager.propagation_calls projects package_name version).takeWhile
          (fun c => !raises c) ++
        ((DependencyManager.propagation_calls projects package_name version).dropWhile
          (fun c => !raises c)).take 1,
       (DependencyManager.propagation_calls projects package_name version).all
          (fun c => !raises c)) :=
  runCalls_spec raises (DependencyManager.propagation_calls projects package_name version)

/-- C6.  The claim's last part ("a filename not matching the pattern yields
no package name/version and the event is dropped (not enqueued)") fails on
the code: for an accepted payload whose asset name "package.whl" does not
match `<name>-<major>.<minor>.<patch>`, `get_name`/`get_version` return
`None`, yet the handler still enqueues the event (with `None` in the
`package_name` and `version` slots) instead of dropping it. -/
theorem C6_counterexample :
    get_name "package.whl" = Option.none ∧
    get_version "package.whl" = Option.none ∧
    handle_nexus_webhook
        (NexusWebhook.mk "t0" "node0" "ci" "pypi-hosted" "CREATED"
          (AssetData.mk "1" "a1" "pypi" "package.whl")) =
      WebhookResponse.queued
        [("package_name", PyValue.none), ("version", PyValue.none),
         ("repository", PyValue.str "pypi-hosted"),
         ("timestamp", PyValue.str "t0")] := by
  decide

/-- C6 (amended).  The boundary accepts a payload exactly when
`action == "CREATED"` and the asset name ends in `.whl`; on an accepted
payload the package name and version extracted by the
`<name>-<major>.<minor>.<patch>` pattern (underscores of the name normalised
to hyphens) are placed in the enqueued event — `my_pkg-1.2.3.whl` yields
name `my-pkg` and version `1.2.3` — but a filename not matching the pattern
yields `None` name/version and the event is *still enqueued*, not dropped. -/
theorem C6_ingestion_boundary (payload : NexusWebhook) :
    (payload.action ≠ "CREATED" →
       handle_nexus_webhook payload = WebhookResponse.ignored "Not a CREATE event") ∧
    (payload.action = "CREATED" → pyEndsWith payload.asset.name ".whl" = false →
       handle_nexus_webhook payload = WebhookResponse.ignored "Not a wheel file") ∧
    (payload.action = "CREATED" → pyEndsWith payload.asset.name ".whl" = true →
       handle_nexus_webhook payload =
         WebhookResponse.queued
           [("package_name", optStr (get_name payload.asset.name)),
            ("version", optStr (get_version payload.asset.name)),
            ("repository", PyValue.str payload.repositoryName),
            ("timestamp", PyValue.str payload.timestamp)]) ∧
    get_name "my_pkg-1.2.3.whl" = Option.some "my-pkg" ∧
    get_version "my_pkg-1.2.3.whl" = Option.some "1.2.3" := by
  refine ⟨?_, ?_, ?_, by decide, by decide⟩
  · intro h
    simp [handle_nexus_webhook, h]
  · intro h1 h2
    simp [handle_nexus_webhook, h1, h2]
  · intro h1 h2
    simp [handle_nexus_webhook, h1, h2]

/-- Witness for `C6_ingestion_boundary`: a DELETED event is ignored with the
source's reason string. -/
theorem C6_witness :
    handle_nexus_webhook
        (NexusWebhook.mk "t0" "node0" "ci" "pypi-hosted" "DELETED"
          (AssetData.mk "1" "a1" "pypi" "my_pkg-1.2.3.whl")) =
      WebhookResponse.ignored "Not a CREATE event" :=
  (C6_ingestion_boundary
      (NexusWebhook.mk "t0" "node0" "ci" "pypi-hosted" "DELETED"
        (AssetData.mk "1" "a1" "pypi" "my_pkg-1.2.3.whl"))).1 (by decide)

/-- C2.  The event dict the handler enqueues for an accepted payload stores
the package name under key "package_name", while the propagation workflow's
first read is `package_info["name"]` (line 143 of
`src/dependency_manager.py`): that lookup finds no key and raises
`KeyError` (`Option.none` here), so the claim that the workflow's lookups on
a webhook-produced event succeed is violated by the code on every accepted
event. -/
theorem C2_key_mismatch :
    handle_nexus_webhook
        (NexusWebhook.mk "2024-01-01T00:00:00" "node0" "ci" "pypi-hosted"
          "CREATED" (AssetData.mk "1" "a1" "pypi" "my_pkg-1.2.3.whl")) =
      WebhookResponse.queued
        [("package_name", PyValue.str "my-pkg"),
         ("version", PyValue.str "1.2.3"),
         ("repository", PyValue.str "pypi-hosted"),
         ("timestamp", PyValue.str "2024-01-01T00:00:00")] ∧
    pyDictGet
        [("package_name", PyValue.str "my-pkg"),
         ("version", PyValue.str "1.2.3"),
         ("repository", PyValue.str "pypi-hosted"),
         ("timestamp", PyValue.str "2024-01-01T00:00:00")] "name" =
      Option.none ∧
    pyDictGet
        [("package_name", PyValue.str "my-pkg"),
         ("version", PyValue.str "1.2.3"),
         ("repository", PyValue.str "pypi-hosted"),
         ("timestamp", PyValue.str "2024-01-01T00:00:00")] "package_name" =
      Option.some (PyValue.str "my-pkg") := by
  decide

/-- Helper: `takeWhile` passes over a block of characters that all satisfy
the predicate. -/
theorem takeWhile_all_append {p : Char → Bool} :
    ∀ (l1 l2 : List Char), (∀ c ∈ l1, p c = true) →
      (l1 ++ l2).takeWhile p = l1 ++ l2.takeWhile p := by
  intro l1
  induction l1 with
  | nil => intro l2 _; rfl
  | cons c t ih =>
    intro l2 h
    have hc : p c = true := h c (by simp)
    simp only [List.cons_append, List.takeWhile_cons, hc, if_true]
    rw [ih l2 (fun x hx => h x (by simp [hx]))]

/-- The legacy parse applied to a VCS-form entry recovers the bare name:
`split("@")[0]` stops at the `@` of `" @ git+"` and `[:-1]` drops the
separating space, for every `@`-free name and every suffix. -/
theorem parse_vcs_entry_eq (name tail : String) (h : '@' ∉ name.data) :
    legacy.parse_dep_entry (name ++ " @ git+" ++ tail) = name := by
  unfold legacy.parse_dep_entry
  have hdata : (name ++ " @ git+" ++ tail).data
      = (name.data ++ [' ']) ++ '@' :: (' ' :: 'g' :: 'i' :: 't' :: '+' :: tail.data) := by
    have hd : (name ++ " @ git+" ++ tail).data
        = (name.data ++ [' ', '@', ' ', 'g', 'i', 't', '+']) ++ tail.data := rfl
    rw [hd]
    simp
  rw [hdata]
  rw [takeWhile_all_append (name.data ++ [' '])
    ('@' :: (' ' :: 'g' :: 'i' :: 't' :: '+' :: tail.data)) ?hall]
  case hall =>
    intro c hc
    rcases List.mem_append.mp hc with h1 | h1
    · have : c ≠ '@' := fun heq => h (heq ▸ h1)
      simpa using this
    · have hcs : c = ' ' := by simpa using h1
      subst hcs
      decide
  have htw : (('@' :: (' ' :: 'g' :: 'i' :: 't' :: '+' :: tail.data)).takeWhile
      (fun c => c ≠ '@')) = [] := by
    simp [List.takeWhile_cons]
  rw [htw, List.append_nil, List.dropLast_concat]

/-- Helper for C7: parsing the rendered dependency array recovers the input
names when every name is covered by the url dict and is `@`-free. -/
theorem parse_render_list (urls : List (String × String)) :
    ∀ names : List String,
      (∀ d ∈ names, (pyDictGet urls d).isSome = true) →
      (∀ d ∈ names, '@' ∉ d.data) →
      legacy.parse_dependencies
        (names.filterMap (fun dep =>
          (pyDictGet urls dep).map (fun url => dep ++ " @ git+" ++ url ++ "@main"))) =
        names := by
  intro names
  induction names with
  | nil => intro _ _; rfl
  | cons d rest ih =>
    intro hurl hat
    obtain ⟨url, hu⟩ := Option.isSome_iff_exists.mp (hurl d (by simp))
    simp only [List.filterMap_cons, hu, Option.map_some]
    show legacy.parse_dep_entry (d ++ " @ git+" ++ url ++ "@main") ::
        legacy.parse_dependencies
          (rest.filterMap (fun dep =>
            (pyDictGet urls dep).map (fun u => dep ++ " @ git+" ++ u ++ "@main"))) =
      d :: rest
  -- rewrite the head entry and recurse on the tail
    have hassoc : d ++ " @ git+" ++ url ++ "@main" = d ++ " @ git+" ++ (url ++ "@main") :=
      String.append_assoc _ _ _
    rw [hassoc, parse_vcs_entry_eq d (url ++ "@main") (hat d (by simp)),
      ih (fun x hx => hurl x (by simp [hx])) (fun x hx => hat x (by simp [hx]))]

/-- C7.  The round-trip claim fails for dependency names absent from the
name → url map: the initial-assignment render silently drops them, so the
parse of the rendered manifest cannot recover them.  With `D = ["a"]` and an
empty map, the render emits no entry at all and the parse returns `[]`. -/
theorem C7_counterexample :
    legacy.parse_dependencies
        ((legacy.update_toml_dependencies (TomlDoc.mk "demo" ["old"] "")
          ["a"] []).dependencies) = [] ∧
    ([] : List String) ≠ ["a"] := by
  decide

/-- C7 (amended).  The round-trip holds for every manifest, every dependency
name list and every name → url map, provided every name of the list is
present in the map (otherwise the render drops it) and no name contains `@`
(the parse splits at the first `@`): parsing the rendered manifest then
recovers the names exactly, in order. -/
theorem C7_roundtrip (doc : TomlDoc) (names : List String)
    (project_urls : List (String × String))
    (hurl : ∀ d ∈ names, (pyDictGet project_urls d).isSome = true)
    (hat : ∀ d ∈ names, '@' ∉ d.data) :
    legacy.parse_dependencies
        ((legacy.update_toml_dependencies doc names project_urls).dependencies) =
      names :=
  parse_render_list project_urls names hurl hat

/-- Witness for `C7_roundtrip` at a concrete manifest, name list and map. -/
theorem C7_witness :
    legacy.parse_dependencies
        ((legacy.update_toml_dependencies (TomlDoc.mk "demo" [] "")
          ["a"] urlsSingle).dependencies) = ["a"] :=
  C7_roundtrip (TomlDoc.mk "demo" [] "") ["a"] urlsSingle (by decide) (by decide)

/-- C8.  The claim ("for every entry in any of the three encodings, parsing
recovers the bare dependency name") fails on the code for the `>=` and `==`
encodings: the parse `dep.split("@")[0][:-1]` finds no `@` and so returns
the whole entry minus its last character — "foo>=1.2.3" parses to
"foo>=1.2.", not "foo". -/
theorem C8_counterexample :
    legacy.parse_dep_entry "foo>=1.2.3" = "foo>=1.2." ∧
    ("foo>=1.2." : String) ≠ "foo" ∧
    legacy.parse_dep_entry "foo==1.2.3" = "foo==1.2." := by
  decide

/-- C8 (amended).  Parsing recovers the bare dependency name for VCS-form
entries only: for every `@`-free name and every url and ref, the entry
`name @ git+<url>@<ref>` parses back to `name` (the text before the first
`@` minus the separating space); `>=`/`==` entries instead parse to the
entry minus its final character.  The parse never mutates the manifest—it
is a pure derived view used for display and graph purposes. -/
theorem C8_parse_recovers_vcs_name (name url ref : String) (h : '@' ∉ name.data) :
    legacy.parse_dep_entry (name ++ " @ git+" ++ (url ++ "@" ++ ref)) = name :=
  parse_vcs_entry_eq name (url ++ "@" ++ ref) h

/-- Witness for `C8_parse_recovers_vcs_name` at a concrete VCS entry. -/
theorem C8_witness :
    legacy.parse_dep_entry
        ("foo" ++ " @ git+" ++ ("http://host/foo.git" ++ "@" ++ "main")) = "foo" :=
  C8_parse_recovers_vcs_name "foo" "http://host/foo.git" "main" (by decide)

/-- Helper: assigning a key absent from the dict appends it. -/
theorem pyDictSet_append {κ α : Type} [BEq κ] (d : List (κ × α)) (k : κ) (v : α)
    (h : ∀ kv ∈ d, (kv.1 == k) = false) :
    pyDictSet d k v = d ++ [(k, v)] := by
  unfold pyDictSet
  have hany : d.any (fun kv => kv.1 == k) = false := by
    rw [List.any_eq_false]
    intro kv hkv
    simp [h kv hkv]
  rw [hany]
  simp

/-- Helper: building a dict by repeated assignment from pairwise-distinct
keys reproduces the pair list itself (insertion order, no overwrites). -/
theorem foldl_pyDictSet_of_nodup {κ α : Type} [BEq κ] [LawfulBEq κ] :
    ∀ (l acc : List (κ × α)),
      (∀ kv ∈ l, ∀ kv' ∈ acc, kv'.1 ≠ kv.1) →
      (l.map Prod.fst).Nodup →
      l.foldl (fun d kv => pyDictSet d kv.1 kv.2) acc = acc ++ l := by
  intro l
  induction l with
  | nil => intro acc _ _; simp
  | cons kv t ih =>
    intro acc hdis hnd
    have hnd2 : (kv.1 :: t.map Prod.fst).Nodup := by simpa using hnd
    rcases List.nodup_cons.mp hnd2 with ⟨hnotin, hnd'⟩
    simp only [List.foldl_cons]
    have hset : pyDictSet acc kv.1 kv.2 = acc ++ [kv] := by
      rw [pyDictSet_append]
      intro kv' hkv'
      have : kv'.1 ≠ kv.1 := hdis kv (by simp) kv' hkv'
      simpa using this
    rw [hset, ih (acc ++ [kv]) ?newdis hnd']
    · simp
    case newdis =>
      intro kv2 hkv2 kv' hkv'
      rcases List.mem_append.mp hkv' with h1 | h1
      · exact hdis kv2 (by simp [hkv2]) kv' h1
      · have hkv : kv' = kv := by simpa using h1
        subst hkv
        intro heq
        exact hnotin (List.mem_map.mpr ⟨kv2, hkv2, heq.symm⟩)

/-- Helper: on a dict with pairwise-distinct keys, `get` returns the value
stored with the key. -/
theorem pyDictGetD_of_mem_nodup {α : Type} :
    ∀ (d : List (String × α)) (k : String) (v dflt : α),
      (k, v) ∈ d → (d.map Prod.fst).Nodup → pyDictGetD d k dflt = v := by
  intro d
  induction d with
  | nil => intro k v dflt h _; simp at h
  | cons kv t ih =>
    intro k v dflt hmem hnd
    have hnd2 : (kv.1 :: t.map Prod.fst).Nodup := by simpa using hnd
    rcases List.nodup_cons.mp hnd2 with ⟨hnotin, hnd'⟩
    rcases List.mem_cons.mp hmem with h1 | h1
    · subst h1
      unfold pyDictGetD
      simp
    · have hk : k ∈ t.map Prod.fst := List.mem_map.mpr ⟨(k, v), h1, rfl⟩
      have hne : (kv.1 == k) = false := by
        have : kv.1 ≠ k := fun heq => hnotin (heq ▸ hk)
        simpa using this
      have := ih k v dflt h1 hnd'
      unfold pyDictGetD at this ⊢
      rw [List.find?_cons_of_neg _ (by simp [hne])]
      exact this

/-- C9.  Registry-load failure semantics: a transport-level failure while
listing the group's projects is fatal to the load (the source's `except`
clause logs and re-raises, so the error propagates unchanged, with no
retry), whereas a missing manifest for an individual repository is
non-fatal: the load still succeeds and that repository is recorded with an
empty dependency list (after a warning log).  Stated for every API
behaviour and every group whose listing has pairwise-distinct project
names and ids (GitLab guarantees both). -/
theorem C9_registry_load (api : DependencyManager.GitLabApiModel) (group_id : Nat) :
    (∀ e, api.get_all_projects_from_group group_id = Except.error e →
        DependencyManager.load_group_projects api group_id = Except.error e) ∧
    (∀ ps, api.get_all_projects_from_group group_id = Except.ok ps →
      (ps.map DependencyManager.ProjectResponse.name).Nodup →
      (ps.map DependencyManager.ProjectResponse.id).Nodup →
      ∃ res, DependencyManager.load_group_projects api group_id = Except.ok res ∧
        ∀ pr ∈ ps, api.get_pyproject_toml pr.id = Option.none →
          (pr.id, ProjectInfo.mk pr.name pr.url []) ∈ res) := by
  constructor
  · intro e he
    unfold DependencyManager.load_group_projects
    rw [he]
  · intro ps hok hnames hids
    have hdeps : DependencyManager.parse_dependencies_from_response api ps
        = ps.map (fun pr => (pr.name, DependencyManager.manifest_dependencies api pr)) := by
      unfold DependencyManager.parse_dependencies_from_response
      rw [show ps.foldl
            (fun deps pr =>
              pyDictSet deps pr.name (DependencyManager.manifest_dependencies api pr)) []
          = (ps.map (fun pr =>
              (pr.name, DependencyManager.manifest_dependencies api pr))).foldl
              (fun d kv => pyDictSet d kv.1 kv.2) [] from
        (List.foldl_map
          (fun pr => (pr.name, DependencyManager.manifest_dependencies api pr))
          (fun d kv => pyDictSet d kv.1 kv.2) ps []).symm]
      rw [foldl_pyDictSet_of_nodup _ [] (by simp)
        (by simpa [List.map_map, Function.comp] using hnames)]
      simp
    refine ⟨ps.map (fun pr => (pr.id, ProjectInfo.mk pr.name pr.url
        (pyDictGetD (DependencyManager.parse_dependencies_from_response api ps)
          pr.name []))), ?_, ?_⟩
    · unfold DependencyManager.load_group_projects
      rw [hok]
      show Except.ok (ps.foldl
          (fun projects pr => pyDictSet projects pr.id
            (ProjectInfo.mk pr.name pr.url
              (pyDictGetD (DependencyManager.parse_dependencies_from_response api ps)
                pr.name []))) []) = _
      rw [show ps.foldl
            (fun projects pr => pyDictSet projects pr.id
              (ProjectInfo.mk pr.name pr.url
                (pyDictGetD (DependencyManager.parse_dependencies_from_response api ps)
                  pr.name []))) []
          = (ps.map (fun pr => (pr.id, ProjectInfo.mk pr.name pr.url
              (pyDictGetD (DependencyManager.parse_dependencies_from_response api ps)
                pr.name [])))).foldl (fun d kv => pyDictSet d kv.1 kv.2) [] from
        (List.foldl_map
          (fun pr => (pr.id, ProjectInfo.mk pr.name pr.url
            (pyDictGetD (DependencyManager.parse_dependencies_from_response api ps)
              pr.name [])))
          (fun d kv => pyDictSet d kv.1 kv.2) ps []).symm]
      rw [foldl_pyDictSet_of_nodup _ [] (by simp)
        (by simpa [List.map_map, Function.comp] using hids)]
      simp
    · intro pr hpr htoml
      have hget : pyDictGetD
          (DependencyManager.parse_dependencies_from_response api ps) pr.name [] = [] := by
        rw [hdeps]
        apply pyDictGetD_of_mem_nodup
        · exact List.mem_map.mpr
            ⟨pr, hpr, by simp [DependencyManager.manifest_dependencies, htoml]⟩
        · simpa [List.map_map, Function.comp] using hnames
      exact List.mem_map.mpr ⟨pr, hpr, by rw [hget]⟩

/-- Witness for `C9_registry_load`: with `apiListingFails` the load
propagates the transport error, and with `apiTwoProjects` (project 2 has no
manifest) the load succeeds and records project 2 with zero dependencies. -/
theorem C9_witness :
    DependencyManager.load_group_projects apiListingFails 7 =
      Except.error "connection refused" ∧
    ∃ res, DependencyManager.load_group_projects apiTwoProjects 5 = Except.ok res ∧
      ((2 : Nat), ProjectInfo.mk "svc-b" "http://git/svc-b.git" []) ∈ res := by
  constructor
  · exact (C9_registry_load apiListingFails 7).1 "connection refused" rfl
  · obtain ⟨res, hres, hmem⟩ :=
      (C9_registry_load apiTwoProjects 5).2
        [DependencyManager.ProjectResponse.mk 1 "svc-a" "http://git/svc-a.git",
         DependencyManager.ProjectResponse.mk 2 "svc-b" "http://git/svc-b.git"]
        rfl (by decide) (by decide)
    exact ⟨res, hres,
      hmem (DependencyManager.ProjectResponse.mk 2 "svc-b" "http://git/svc-b.git")
        (by decide) (by decide)⟩

/-- Helper: in an association list with pairwise-distinct keys, a key
determines its value. -/
theorem assoc_value_eq_of_nodup {α : Type} :
    ∀ (l : List (String × α)) (k : String) (v v' : α),
      (l.map Prod.fst).Nodup → (k, v) ∈ l → (k, v') ∈ l → v = v' := by
  intro l
  induction l with
  | nil => intro k v v' _ h _; simp at h
  | cons kv t ih =>
    intro k v v' hnd h h'
    have hnd2 : (kv.1 :: t.map Prod.fst).Nodup := by simpa using hnd
    rcases List.nodup_cons.mp hnd2 with ⟨hnotin, hnd'⟩
    rcases List.mem_cons.mp h with h1 | h1 <;> rcases List.mem_cons.mp h' with h2 | h2
    · rw [← h1] at h2
      exact (Prod.mk.injEq _ _ _ _).mp h2.symm |>.2
    · exfalso
      exact hnotin (List.mem_map.mpr ⟨(k, v'), h2, by rw [← h1]⟩)
    · exfalso
      exact hnotin (List.mem_map.mpr ⟨(k, v), h1, by rw [← h2]⟩)
    · exact ih k v v' hnd' h1 h2

/-- C10.  The claim's leaf rule ("in leaves exactly when no *other*
project's dependency list names it") fails on the code: for the map
`{"A": ["A"]}` (a self-dependency), no other project names `A` and `A` is
not a root, so per the claim `A` is a leaf — but `all_deps` also collects a
project's own dependency list, so the code classifies `A` as middle. -/
theorem C10_counterexample :
    (∀ kv ∈ ([("A", ["A"])] : List (String × List String)),
        kv.1 ≠ "A" → "A" ∉ kv.2) ∧
    DependencyManager.classify_module [("A", ["A"])] "A" ≠
      DependencyManager.ModuleClass.leaf ∧
    DependencyManager.classify_module [("A", ["A"])] "A" =
      DependencyManager.ModuleClass.middle := by
  decide

/-- C10 (amended).  For every name → dependencies map with distinct names
(a Python dict): a project is classified root exactly when its dependency
list is empty; leaf exactly when it is not a root and *no* project's
dependency list — its own included — names it; middle otherwise; and the
edge list has one (dependency → dependent) pair per dependency reference.
On the two-project example where A depends on B and B on nothing, this
yields roots = {B}, leaves = {A} and the single edge B → A. -/
theorem C10_graph_classification (dependencies : List (String × List String))
    (hnd : (dependencies.map Prod.fst).Nodup) :
    (∀ module deps, (module, deps) ∈ dependencies →
      ((DependencyManager.classify_module dependencies module =
          DependencyManager.ModuleClass.root ↔ deps = []) ∧
       (DependencyManager.classify_module dependencies module =
          DependencyManager.ModuleClass.leaf ↔
            deps ≠ [] ∧ ∀ kv ∈ dependencies, module ∉ kv.2) ∧
       (DependencyManager.classify_module dependencies module =
          DependencyManager.ModuleClass.middle ↔
            deps ≠ [] ∧ ∃ kv ∈ dependencies, module ∈ kv.2))) ∧
    DependencyManager.root_modules [("A", ["B"]), ("B", [])] = ["B"] ∧
    DependencyManager.leaf_modules [("A", ["B"]), ("B", [])] = ["A"] ∧
    DependencyManager.module_edges [("A", ["B"]), ("B", [])] = [("B", "A")] := by
  refine ⟨?_, by decide, by decide, by decide⟩
  intro module deps hmd
  have hcont : ∀ (l : List String) (m : String), (l.contains m = true) ↔ m ∈ l := by
    intro l m
    simp
  have hroot : ((DependencyManager.root_modules dependencies).contains module = true)
      ↔ deps = [] := by
    rw [hcont]
    unfold DependencyManager.root_modules
    constructor
    · intro h
      obtain ⟨kv, hkv, hk1⟩ := List.mem_map.mp h
      obtain ⟨hkvmem, hkv2⟩ := List.mem_filter.mp hkv
      have hkv' : (module, kv.2) ∈ dependencies := by
        rw [← hk1]
        simpa using hkvmem
      have hveq : kv.2 = deps :=
        assoc_value_eq_of_nodup dependencies module kv.2 deps hnd hkv' hmd
      rw [← hveq]
      simpa using hkv2
    · intro h
      exact List.mem_map.mpr
        ⟨(module, deps), List.mem_filter.mpr ⟨hmd, by simp [h]⟩, rfl⟩
  have hall : ((DependencyManager.all_deps dependencies).contains module = true)
      ↔ ∃ kv ∈ dependencies, module ∈ kv.2 := by
    rw [hcont]
    unfold DependencyManager.all_deps
    exact List.mem_flatMap
  have hkeys : module ∈ dependencies.map (fun kv => kv.1) :=
    List.mem_map.mpr ⟨(module, deps), hmd, rfl⟩
  have hleaf : ((DependencyManager.leaf_modules dependencies).contains module = true)
      ↔ ¬ ∃ kv ∈ dependencies, module ∈ kv.2 := by
    rw [hcont]
    unfold DependencyManager.leaf_modules
    rw [List.mem_filter]
    constructor
    · rintro ⟨_, hf⟩
      intro hex
      have := hall.mpr hex
      rw [this] at hf
      simp at hf
    · intro hne
      refine ⟨hkeys, ?_⟩
      have : ¬ ((DependencyManager.all_deps dependencies).contains module = true) :=
        fun h => hne (hall.mp h)
      simpa using this
  unfold DependencyManager.classify_module
  by_cases hA : (DependencyManager.root_modules dependencies).contains module = true
  · have hdeps0 : deps = [] := hroot.mp hA
    refine ⟨⟨fun _ => hdeps0, fun _ => by rw [if_pos hA]⟩, ?_, ?_⟩
    · constructor
      · intro h
        rw [if_pos hA] at h
        exact DependencyManager.ModuleClass.noConfusion h
      · rintro ⟨hne, _⟩
        exact absurd hdeps0 hne
    · constructor
      · intro h
        rw [if_pos hA] at h
        exact DependencyManager.ModuleClass.noConfusion h
      · rintro ⟨hne, _⟩
        exact absurd hdeps0 hne
  · have hdepsne : deps ≠ [] := fun h => hA (hroot.mpr h)
    by_cases hB : (DependencyManager.leaf_modules dependencies).contains module = true
    · have hnoref : ¬ ∃ kv ∈ dependencies, module ∈ kv.2 := hleaf.mp hB
      refine ⟨?_, ?_, ?_⟩
      · constructor
        · intro h
          rw [if_neg hA, if_pos hB] at h
          exact DependencyManager.ModuleClass.noConfusion h
        · intro h
          exact absurd h hdepsne
      · exact ⟨fun _ => ⟨hdepsne, fun kv hkv hm => hnoref ⟨kv, hkv, hm⟩⟩,
          fun _ => by rw [if_neg hA, if_pos hB]⟩
      · constructor
        · intro h
          rw [if_neg hA, if_pos hB] at h
          exact DependencyManager.ModuleClass.noConfusion h
        · rintro ⟨_, hex⟩
          exact absurd hex hnoref
    · have hex : ∃ kv ∈ dependencies, module ∈ kv.2 := by
        by_contra hne
        exact hB (hleaf.mpr hne)
      refine ⟨?_, ?_, ?_⟩
      · constructor
        · intro h
          rw [if_neg hA, if_neg hB] at h
          exact DependencyManager.ModuleClass.noConfusion h
        · intro h
          exact absurd h hdepsne
      · constructor
        · intro h
          rw [if_neg hA, if_neg hB] at h
          exact DependencyManager.ModuleClass.noConfusion h
        · rintro ⟨_, hforall⟩
          obtain ⟨kv, hkv, hm⟩ := hex
          exact absurd hm (hforall kv hkv)
      · exact ⟨fun _ => ⟨hdepsne, hex⟩, fun _ => by rw [if_neg hA, if_neg hB]⟩

/-- Witness for `C10_graph_classification`: on the A-depends-on-B example,
A is classified leaf. -/
theorem C10_witness :
    DependencyManager.classify_module [("A", ["B"]), ("B", [])] "A" =
      DependencyManager.ModuleClass.leaf :=
  (((C10_graph_classification [("A", ["B"]), ("B", [])] (by decide)).1
      "A" ["B"] (by decide)).2.1).mpr (by decide)
